import Mathlib

/-! WindowsHello: wrapped master keys behind the platform key-storage provider

A shallow embedding of `src/winhello/WindowsHello.cpp` / `WindowsHello.h`.

* The two globals `g_encryptedMasterKeys` and `g_winHelloAvailable` are fields of `State`.
* The NCrypt functions and the two Qt queries (`QCoreApplication::translate`,
  `QApplication::activeWindow`) are external; they are the fields of `Platform`, a
  deterministic state machine over an arbitrary state type `σ`.  Every theorem quantifies
  over the platform, so it holds for every behaviour of the external calls.
* Every external call is appended to `State.trace` (ghost state, never read by the code),
  which is how "no platform call", "handle released" and "encryption failed" are stated.
* A handle variable is an `Option NCRYPT_HANDLE`: `none` is the C++ local that has been
  declared (`NCRYPT_PROV_HANDLE hProvider;`) but that no successful open has assigned.
* A byte buffer handed back by the platform is the list of bytes it holds after the call;
  `QByteArray.ctor` copies a prefix of it (a read past the end of the list, out of bounds in
  C++, stops at the end of the list).
-/

namespace WindowsHello

/-! ## Data model -/

abbrev QByteArray := List UInt8

abbrev QString := String

abbrev NCRYPT_HANDLE := Nat

/-- WindowsHello.h: `#define WINDOWSHELLO_UNDEFINED -1`. -/
def WINDOWSHELLO_UNDEFINED : Int := -1

/-- WindowsHello.h: `#define WINDOWSHELLO_AVAILABLE 1`. -/
def WINDOWSHELLO_AVAILABLE : Int := 1

/-- WindowsHello.h: `#define WINDOWSHELLO_NOT_AVAILABLE 0`. -/
def WINDOWSHELLO_NOT_AVAILABLE : Int := 0

/-- The fields of `NCryptKeyName` that `getNCryptHandles` reads. -/
structure NCryptKeyName where
  pszName : String
  dwLegacyKeySpec : Nat
  deriving DecidableEq, Repr

/-- The three properties `getNCryptHandles` sets on the key handle, with the value passed. -/
inductive Property where
  | NCRYPT_USE_CONTEXT_PROPERTY (prompt : String)
  | NCRYPT_WINDOW_HANDLE_PROPERTY (windowHandle : Nat)
  | NCRYPT_PIN_CACHE_IS_GESTURE_REQUIRED_PROPERTY (requirePin : Nat)
  deriving DecidableEq, Repr

/-- One external call together with what it returned.  A result `none` (or `false`) is a
status other than `ERROR_SUCCESS`. -/
inductive Event where
  | openStorageProvider (result : Option NCRYPT_HANDLE)
  | enumKeys (hProv : NCRYPT_HANDLE) (result : Option NCryptKeyName)
  | openKey (hProv : NCRYPT_HANDLE) (name : String) (spec : Nat) (result : Option NCRYPT_HANDLE)
  | freeBuffer
  | setProperty (hKey : NCRYPT_HANDLE) (prop : Property) (ok : Bool)
  | encrypt (hKey : Option NCRYPT_HANDLE) (input : QByteArray) (cbOutput : Option Nat)
      (result : Option (List UInt8 × Nat))
  | decrypt (hKey : Option NCRYPT_HANDLE) (input : List UInt8)
      (result : Option (List UInt8 × Nat))
  | freeObject (h : Option NCRYPT_HANDLE)
  deriving DecidableEq, Repr

/-- The external world: the NCrypt API and the two Qt queries, as a state machine on `σ`.

* `NCryptEncrypt w hKey input out`: `out = none` is the size query (`pbOutput = NULL`,
  `cbOutput = 0`), `out = some n` passes a buffer of `n` bytes.  A result `some (mem, len)`
  is `ERROR_SUCCESS` with `mem` the bytes of the output buffer after the call and `len` the
  value written to `*pcbResult`.
* `NCryptDecrypt w hKey buf`: input and output buffer are the same memory, initially `buf`;
  `some (mem, len)` as for encrypt.
* `NCryptFreeObject w h`: `h = none` is the value of a handle variable nothing assigned. -/
structure Platform (σ : Type) where
  NCryptOpenStorageProvider : σ → Option NCRYPT_HANDLE × σ
  NCryptEnumKeys : σ → NCRYPT_HANDLE → Option NCryptKeyName × σ
  NCryptOpenKey : σ → NCRYPT_HANDLE → String → Nat → Option NCRYPT_HANDLE × σ
  NCryptFreeBuffer : σ → σ
  NCryptSetProperty : σ → NCRYPT_HANDLE → Property → Bool × σ
  NCryptEncrypt : σ → Option NCRYPT_HANDLE → QByteArray → Option Nat →
    Option (List UInt8 × Nat) × σ
  NCryptDecrypt : σ → Option NCRYPT_HANDLE → List UInt8 → Option (List UInt8 × Nat) × σ
  NCryptFreeObject : σ → Option NCRYPT_HANDLE → σ
  translate : String → String → String
  activeWindow : σ → Option Nat

/-- The module's two globals, the state of the external world, and the log of calls. -/
structure State (σ : Type) where
  g_encryptedMasterKeys : List (QString × QByteArray)
  g_winHelloAvailable : Int
  platform : σ
  trace : List Event
  deriving DecidableEq

/-- Record an external call: the world moves to `w` and `e` is logged. -/
def State.call {σ : Type} (s : State σ) (w : σ) (e : Event) : State σ :=
  { s with platform := w, trace := s.trace ++ [e] }

/-- Assignment to `g_winHelloAvailable`. -/
def State.setAvailable {σ : Type} (s : State σ) (v : Int) : State σ :=
  { s with g_winHelloAvailable := v }

/-- Assignment to `g_encryptedMasterKeys`. -/
def State.setKeys {σ : Type} (s : State σ) (h : List (QString × QByteArray)) : State σ :=
  { s with g_encryptedMasterKeys := h }

/-- Conversion `static_cast<int>` of a `DWORD`: two's complement on 32 bits. -/
def toInt32 (n : Nat) : Int :=
  if n % 2 ^ 32 < 2 ^ 31 then ((n % 2 ^ 32 : Nat) : Int) else ((n % 2 ^ 32 : Nat) : Int) - 2 ^ 32

/-- Constructor `QByteArray(const char* data, int size)`: a copy of the first `size` bytes at
`data`; a negative `size` means "up to the first NUL byte". -/
def QByteArray.ctor (data : List UInt8) (size : Int) : QByteArray :=
  if size < 0 then data.takeWhile (fun b => b != 0) else data.take size.toNat

/-! ## `QHash<QString, QByteArray>` as an association list -/

namespace QHash

/-- Qt `QHash::contains`. -/
def contains (h : List (QString × QByteArray)) (key : QString) : Bool :=
  h.any (fun e => e.1 == key)

/-- The value stored under `key`, if any (`QHash::find`). -/
def find (h : List (QString × QByteArray)) (key : QString) : Option QByteArray :=
  (h.find? (fun e => e.1 == key)).map (fun e => e.2)

/-- Qt `QHash::remove`: every item with this key goes. -/
def remove (h : List (QString × QByteArray)) (key : QString) : List (QString × QByteArray) :=
  h.filter (fun e => e.1 != key)

/-- Qt `QHash::insert`: an existing item with this key is replaced. -/
def insert (h : List (QString × QByteArray)) (key : QString) (value : QByteArray) :
    List (QString × QByteArray) :=
  (key, value) :: remove h key

/-- The non-const `QHash::operator[]`: the value under `key`; when there is none, a
default-constructed (empty) value is inserted first. -/
def index (h : List (QString × QByteArray)) (key : QString) :
    QByteArray × List (QString × QByteArray) :=
  match find h key with
  | some v => (v, h)
  | none => ([], insert h key [])

/-- Qt `QHash::clear`. -/
def clear (_h : List (QString × QByteArray)) : List (QString × QByteArray) := []

end QHash

/-! ## The code -/

/-- What `getNCryptHandles` leaves behind: its return value, the caller's two handle
variables (both declared without initialiser by every caller), and the new state. -/
structure HandlesResult (σ : Type) where
  ok : Bool
  hProvider : Option NCRYPT_HANDLE
  hKey : Option NCRYPT_HANDLE
  state : State σ

/-- WindowsHello.cpp:43 `getNCryptHandles`.  Each failing step assigns
`WINDOWSHELLO_NOT_AVAILABLE` and returns false; a handle variable is `some h` exactly when
the open that writes it succeeded.  `afterWindow` is the optional window-handle property
set (lines 85-99): its first component is false when that call was made and failed. -/
def getNCryptHandles {σ : Type} (P : Platform σ) (s : State σ) : HandlesResult σ :=
  match P.NCryptOpenStorageProvider s.platform with
  | (none, w) =>
    ⟨false, none, none,
      (s.call w (.openStorageProvider none)).setAvailable WINDOWSHELLO_NOT_AVAILABLE⟩
  | (some hProv, w) =>
    let s := s.call w (.openStorageProvider (some hProv))
    match P.NCryptEnumKeys s.platform hProv with
    | (none, w) =>
      ⟨false, some hProv, none,
        (s.call w (.enumKeys hProv none)).setAvailable WINDOWSHELLO_NOT_AVAILABLE⟩
    | (some keyname, w) =>
      let s := s.call w (.enumKeys hProv (some keyname))
      match P.NCryptOpenKey s.platform hProv keyname.pszName keyname.dwLegacyKeySpec with
      | (none, w) =>
        let s := s.call w (.openKey hProv keyname.pszName keyname.dwLegacyKeySpec none)
        let s := s.call (P.NCryptFreeBuffer s.platform) .freeBuffer
        ⟨false, some hProv, none, s.setAvailable WINDOWSHELLO_NOT_AVAILABLE⟩
      | (some hKey, w) =>
        let s := s.call w (.openKey hProv keyname.pszName keyname.dwLegacyKeySpec (some hKey))
        let s := s.call (P.NCryptFreeBuffer s.platform) .freeBuffer
        let promptMessage :=
          P.translate "DatabaseOpenDialog" "authenticate to access the database"
        match P.NCryptSetProperty s.platform hKey (.NCRYPT_USE_CONTEXT_PROPERTY promptMessage) with
        | (false, w) =>
          ⟨false, some hProv, some hKey,
            (s.call w (.setProperty hKey (.NCRYPT_USE_CONTEXT_PROPERTY promptMessage) false)).setAvailable
              WINDOWSHELLO_NOT_AVAILABLE⟩
        | (true, w) =>
          let s := s.call w (.setProperty hKey (.NCRYPT_USE_CONTEXT_PROPERTY promptMessage) true)
          let afterWindow : Bool × State σ :=
            match P.activeWindow s.platform with
            | none => (true, s)
            | some windowHandle =>
              match P.NCryptSetProperty s.platform hKey
                  (.NCRYPT_WINDOW_HANDLE_PROPERTY windowHandle) with
              | (b, w) =>
                (b, s.call w (.setProperty hKey (.NCRYPT_WINDOW_HANDLE_PROPERTY windowHandle) b))
          if afterWindow.1 = false then
            ⟨false, some hProv, some hKey, afterWindow.2.setAvailable WINDOWSHELLO_NOT_AVAILABLE⟩
          else
            let s := afterWindow.2
            match P.NCryptSetProperty s.platform hKey
                (.NCRYPT_PIN_CACHE_IS_GESTURE_REQUIRED_PROPERTY 1) with
            | (false, w) =>
              ⟨false, some hProv, some hKey,
                (s.call w (.setProperty hKey
                  (.NCRYPT_PIN_CACHE_IS_GESTURE_REQUIRED_PROPERTY 1) false)).setAvailable
                  WINDOWSHELLO_NOT_AVAILABLE⟩
            | (true, w) =>
              ⟨true, some hProv, some hKey,
                (s.call w (.setProperty hKey
                  (.NCRYPT_PIN_CACHE_IS_GESTURE_REQUIRED_PROPERTY 1) true)).setAvailable
                  WINDOWSHELLO_AVAILABLE⟩

/-- WindowsHello.cpp:115 `freeNCryptHandles`: the key handle first, then the provider. -/
def freeNCryptHandles {σ : Type} (P : Platform σ) (hProv hKey : Option NCRYPT_HANDLE)
    (s : State σ) : State σ :=
  let s := s.call (P.NCryptFreeObject s.platform hKey) (.freeObject hKey)
  s.call (P.NCryptFreeObject s.platform hProv) (.freeObject hProv)

/-- WindowsHello.cpp:122 `WindowsHello::isAvailable`. -/
def isAvailable {σ : Type} (P : Platform σ) (s : State σ) : Bool × State σ :=
  let s :=
    if s.g_winHelloAvailable = WINDOWSHELLO_UNDEFINED then
      let r := getNCryptHandles P s
      freeNCryptHandles P r.hProvider r.hKey r.state
    else s
  (decide (s.g_winHelloAvailable = WINDOWSHELLO_AVAILABLE), s)

/-- WindowsHello.cpp:221 `WindowsHello::hasKey`. -/
def hasKey {σ : Type} (s : State σ) (databasePath : QString) : Bool :=
  QHash.contains s.g_encryptedMasterKeys databasePath

/-- WindowsHello.cpp:135 `WindowsHello::storeKey`. -/
def storeKey {σ : Type} (P : Platform σ) (s : State σ) (databasePath : QString)
    (passwordKey : QByteArray) : Bool × State σ :=
  if databasePath.isEmpty then (false, s)
  else if passwordKey.isEmpty then (false, s)
  else
    let a := isAvailable P s
    if a.1 = false then (false, a.2)
    else if QHash.contains a.2.g_encryptedMasterKeys databasePath then (true, a.2)
    else
      let r := getNCryptHandles P a.2
      if r.ok = false then (false, freeNCryptHandles P r.hProvider r.hKey r.state)
      else
        match P.NCryptEncrypt r.state.platform r.hKey passwordKey none with
        | (none, w) =>
          (false, freeNCryptHandles P r.hProvider r.hKey
            (r.state.call w (.encrypt r.hKey passwordKey none none)))
        | (some sized, w) =>
          let s := r.state.call w (.encrypt r.hKey passwordKey none (some sized))
          let encryptedLength := sized.2
          match P.NCryptEncrypt s.platform r.hKey passwordKey (some encryptedLength) with
          | (none, w) =>
            (false, freeNCryptHandles P r.hProvider r.hKey
              (s.call w (.encrypt r.hKey passwordKey (some encryptedLength) none)))
          | (some filled, w) =>
            let s := s.call w (.encrypt r.hKey passwordKey (some encryptedLength) (some filled))
            let cipherData := filled.1
            let encryptedLength := filled.2
            let s := s.setKeys (QHash.insert s.g_encryptedMasterKeys databasePath
              (QByteArray.ctor cipherData (toInt32 encryptedLength)))
            (true, freeNCryptHandles P r.hProvider r.hKey s)

/-- The result of `getKey`: the return value, the caller's `passwordKey` after the call,
and the new state. -/
structure GetKeyResult (σ : Type) where
  ok : Bool
  passwordKey : QByteArray
  state : State σ

/-- WindowsHello.cpp:184 `WindowsHello::getKey`; `passwordKey` is what the caller's
`QByteArray&` holds before the call.  `encryptedMasterKey` is a local copy of the entry
(the non-const `data()` detaches it), so the in-place decryption writes to the copy. -/
def getKey {σ : Type} (P : Platform σ) (s : State σ) (databasePath : QString)
    (passwordKey : QByteArray) : GetKeyResult σ :=
  if databasePath.isEmpty then ⟨false, passwordKey, s⟩
  else if hasKey s databasePath = false then ⟨false, passwordKey, s⟩
  else
    let a := isAvailable P s
    if a.1 = false then ⟨false, passwordKey, a.2⟩
    else
      let r := getNCryptHandles P a.2
      if r.ok = false then
        ⟨false, passwordKey, freeNCryptHandles P r.hProvider r.hKey r.state⟩
      else
        let ix := QHash.index r.state.g_encryptedMasterKeys databasePath
        let encryptedMasterKey := ix.1
        let s := r.state.setKeys ix.2
        match P.NCryptDecrypt s.platform r.hKey encryptedMasterKey with
        | (none, w) =>
          ⟨false, passwordKey, freeNCryptHandles P r.hProvider r.hKey
            (s.call w (.decrypt r.hKey encryptedMasterKey none))⟩
        | (some out, w) =>
          let s := s.call w (.decrypt r.hKey encryptedMasterKey (some out))
          let masterKeyBytes := out.1
          let masterKeyBytesLength := out.2
          ⟨true, QByteArray.ctor masterKeyBytes (toInt32 masterKeyBytesLength),
            freeNCryptHandles P r.hProvider r.hKey s⟩

/-- WindowsHello.cpp:226 `WindowsHello::reset`. -/
def reset {σ : Type} (s : State σ) (databasePath : QString) : State σ :=
  if databasePath.isEmpty then
    s.setKeys (QHash.clear s.g_encryptedMasterKeys)
  else
    s.setKeys (QHash.remove s.g_encryptedMasterKeys databasePath)

/-! ## Reading the trace -/

/-- The events logged between state `s` and a later state `t`. -/
def emitted {σ : Type} (s t : State σ) : List Event :=
  t.trace.drop s.trace.length

/-- A step of the capability probe that returned an error status. -/
def Event.failed : Event → Bool
  | .openStorageProvider none => true
  | .enumKeys _ none => true
  | .openKey _ _ _ none => true
  | .setProperty _ _ false => true
  | _ => false

/-- An `NCryptEncrypt` call (size query or fill) that returned an error status. -/
def Event.encryptFailed : Event → Bool
  | .encrypt _ _ _ none => true
  | _ => false

/-- An `NCryptDecrypt` call that returned an error status. -/
def Event.decryptFailed : Event → Bool
  | .decrypt _ _ none => true
  | _ => false

/-- An `NCryptEncrypt` or `NCryptDecrypt` call. -/
def Event.isCrypt : Event → Bool
  | .encrypt _ _ _ _ => true
  | .decrypt _ _ _ => true
  | _ => false

/-- Handle bookkeeping for one event: a successful provider-open or key-open adds the
returned handle to the handles still open, `NCryptFreeObject h` removes one occurrence of
`h`; nothing else matters. -/
def Event.step (held : List NCRYPT_HANDLE) : Event → List NCRYPT_HANDLE
  | .openStorageProvider (some h) => h :: held
  | .openKey _ _ _ (some h) => h :: held
  | .freeObject (some h) => held.erase h
  | _ => held

/-- The handles opened and not yet released after the events `evs`, starting from none. -/
def openHandles (evs : List Event) : List NCRYPT_HANDLE :=
  evs.foldl Event.step []

/-- Walks the events with the handles that successful opens have returned so far and checks
that every `NCryptFreeObject` is given one of them. -/
def releasesOnlyOpened : List NCRYPT_HANDLE → List Event → Bool
  | _, [] => true
  | opened, .openStorageProvider (some h) :: rest => releasesOnlyOpened (h :: opened) rest
  | opened, .openKey _ _ _ (some h) :: rest => releasesOnlyOpened (h :: opened) rest
  | _, .freeObject none :: _ => false
  | opened, .freeObject (some h) :: rest => opened.contains h && releasesOnlyOpened opened rest
  | opened, _ :: rest => releasesOnlyOpened opened rest

/-! ## Sequences of calls, the reference model of `reset`, and a test double -/

/-- One call into the public interface of WindowsHello.h, with its arguments (for `getKey`
the second argument is what the caller's output `QByteArray` holds beforehand). -/
inductive Call where
  | isAvailable
  | storeKey (databasePath : QString) (passwordKey : QByteArray)
  | getKey (databasePath : QString) (passwordKey : QByteArray)
  | hasKey (databasePath : QString)
  | reset (databasePath : QString)
  deriving DecidableEq

/-- The three calls that consult the capability state. -/
def Call.gated : Call → Bool
  | .isAvailable => true
  | .storeKey _ _ => true
  | .getKey _ _ => true
  | _ => false

/-- Runs one call: the `bool` it returns (`none` for the `void` function `reset`) and the
state afterwards. -/
def Call.run {σ : Type} (P : Platform σ) (s : State σ) : Call → Option Bool × State σ
  | .isAvailable => (some (WindowsHello.isAvailable P s).1, (WindowsHello.isAvailable P s).2)
  | .storeKey p k => (some (WindowsHello.storeKey P s p k).1, (WindowsHello.storeKey P s p k).2)
  | .getKey p out =>
    (some (WindowsHello.getKey P s p out).ok, (WindowsHello.getKey P s p out).state)
  | .hasKey p => (some (WindowsHello.hasKey s p), s)
  | .reset p => (none, WindowsHello.reset s p)

/-- Runs a sequence of calls from left to right, collecting each call with its result. -/
def runCalls {σ : Type} (P : Platform σ) : State σ → List Call →
    List (Call × Option Bool) × State σ
  | s, [] => ([], s)
  | s, c :: cs =>
    ((c, (c.run P s).1) :: (runCalls P (c.run P s).2 cs).1, (runCalls P (c.run P s).2 cs).2)

/-- The store read as a finite map from database path to ciphertext. -/
def storeView {σ : Type} (s : State σ) : QString → Option QByteArray :=
  fun q => QHash.find s.g_encryptedMasterKeys q

/-- Reference definition of the spec's `invalidate(databasePath = "")` on a finite map: "if
given a specific path, removes only that entry; if given the empty/default path, clears the
entire store." -/
def invalidate_spec (m : QString → Option QByteArray) (databasePath : QString) :
    QString → Option QByteArray :=
  fun q => if databasePath = "" then none else if q = databasePath then none else m q

/-- A test double for the platform.  Its state counts the calls made so far; the call made
when the counter equals `failAt` reports an error and every other call succeeds.  The
provider handle is 100, the key handle 200, and encrypt and decrypt both reverse the bytes
and report their number.  `window` is the active window, if any. -/
def scripted (failAt : Nat) (window : Option Nat) : Platform Nat where
  NCryptOpenStorageProvider := fun w => (if w = failAt then none else some 100, w + 1)
  NCryptEnumKeys := fun w _ => (if w = failAt then none else some ⟨"hello", 0⟩, w + 1)
  NCryptOpenKey := fun w _ _ _ => (if w = failAt then none else some 200, w + 1)
  NCryptFreeBuffer := fun w => w + 1
  NCryptSetProperty := fun w _ _ => (decide (w ≠ failAt), w + 1)
  NCryptEncrypt := fun w _ input _ =>
    (if w = failAt then none else some (input.reverse, input.length), w + 1)
  NCryptDecrypt := fun w _ buf =>
    (if w = failAt then none else some (buf.reverse, buf.length), w + 1)
  NCryptFreeObject := fun w _ => w + 1
  translate := fun _ sourceText => sourceText
  activeWindow := fun _ => window

/-- A fresh process: empty store, capability not yet probed, nothing logged. -/
def initial : State Nat := ⟨[], WINDOWSHELLO_UNDEFINED, 0, []⟩

/-- A process whose capability is known to be available and that holds one wrapped key. -/
def unlocked : State Nat := ⟨[("/db/a.kdbx", [9, 8, 7])], WINDOWSHELLO_AVAILABLE, 0, []⟩


/-! ## Lemmas on the association list -/

theorem QHash.contains_remove_self (h : List (QString × QByteArray)) (key : QString) :
    QHash.contains (QHash.remove h key) key = false := by
  simp [QHash.contains, QHash.remove]

theorem QHash.find_remove (h : List (QString × QByteArray)) (key q : QString) :
    QHash.find (QHash.remove h key) q = if q = key then none else QHash.find h q := by
  induction h with
  | nil => simp [QHash.find, QHash.remove]
  | cons e h ih =>
    simp only [QHash.find, QHash.remove] at ih ⊢
    by_cases hk : e.1 = key
    · by_cases hq : q = key
      · simp_all
      · have : ¬ e.1 = q := fun h' => hq (h'.symm.trans hk)
        simp_all [List.filter_cons, List.find?_cons]
    · by_cases hq : e.1 = q
      · have : ¬ q = key := fun h' => hk (hq.trans h')
        simp_all [List.filter_cons, List.find?_cons]
      · simp_all [List.filter_cons, List.find?_cons]

theorem QHash.contains_insert_self (h : List (QString × QByteArray)) (key : QString)
    (v : QByteArray) : QHash.contains (QHash.insert h key v) key = true := by
  simp [QHash.contains, QHash.insert]

theorem QHash.find_insert_self (h : List (QString × QByteArray)) (key : QString)
    (v : QByteArray) : QHash.find (QHash.insert h key v) key = some v := by
  simp [QHash.find, QHash.insert]

theorem QHash.contains_eq_isSome_find (h : List (QString × QByteArray)) (key : QString) :
    QHash.contains h key = (QHash.find h key).isSome := by
  induction h with
  | nil => simp [QHash.contains, QHash.find]
  | cons e h ih =>
    simp only [QHash.contains, QHash.find] at ih ⊢
    by_cases hk : e.1 = key
    · simp [List.find?_cons, hk]
    · simp [List.find?_cons, hk, ih]

theorem QHash.index_of_contains (h : List (QString × QByteArray)) (key : QString)
    (hc : QHash.contains h key = true) :
    (QHash.index h key).2 = h ∧ QHash.find h key = some (QHash.index h key).1 := by
  rw [QHash.contains_eq_isSome_find] at hc
  unfold QHash.index
  cases hf : QHash.find h key with
  | none => simp [hf] at hc
  | some v => simp

theorem emitted_of_append {σ : Type} (s t : State σ) (evs : List Event)
    (h : t.trace = s.trace ++ evs) : emitted s t = evs := by
  simp [emitted, h]


theorem getNCryptHandles_spec {σ : Type} (P : Platform σ) (s : State σ) :
    (getNCryptHandles P s).state.g_encryptedMasterKeys = s.g_encryptedMasterKeys ∧
    ((getNCryptHandles P s).ok = true →
      (getNCryptHandles P s).state.g_winHelloAvailable = WINDOWSHELLO_AVAILABLE) ∧
    ((getNCryptHandles P s).ok = false →
      (getNCryptHandles P s).state.g_winHelloAvailable = WINDOWSHELLO_NOT_AVAILABLE) ∧
    (getNCryptHandles P s).state.trace = s.trace ++ emitted s (getNCryptHandles P s).state ∧
    (∀ e ∈ emitted s (getNCryptHandles P s).state, e.isCrypt = false) ∧
    (∀ held, (emitted s (getNCryptHandles P s).state).foldl Event.step held =
        (getNCryptHandles P s).hKey.toList ++ ((getNCryptHandles P s).hProvider.toList ++ held)) ∧
    ((∃ e ∈ emitted s (getNCryptHandles P s).state, e.failed = true) ↔
      (getNCryptHandles P s).ok = false) := by
  simp only [getNCryptHandles, State.call, State.setAvailable]
  repeat' split
  all_goals simp_all [State.call, State.setAvailable, emitted, Event.isCrypt, Event.step, Event.failed]


theorem isAvailable_spec {σ : Type} (P : Platform σ) (s : State σ) :
    (isAvailable P s).2.g_encryptedMasterKeys = s.g_encryptedMasterKeys ∧
    ((isAvailable P s).1 = true ↔
      (isAvailable P s).2.g_winHelloAvailable = WINDOWSHELLO_AVAILABLE) ∧
    (s.g_winHelloAvailable ≠ WINDOWSHELLO_UNDEFINED → (isAvailable P s).2 = s) ∧
    (isAvailable P s).2.trace = s.trace ++ emitted s (isAvailable P s).2 ∧
    (∀ e ∈ emitted s (isAvailable P s).2, e.isCrypt = false) ∧
    (∀ held, (emitted s (isAvailable P s).2).foldl Event.step held = held) := by
  simp only [isAvailable]
  obtain ⟨hk, -, -, hr, hc, hb, -⟩ := getNCryptHandles_spec P s
  generalize emitted s (getNCryptHandles P s).state = E at *
  generalize getNCryptHandles P s = r at *
  split
  · refine ⟨?_, ?_, ?_, ?_, ?_, ?_⟩
    · simp [freeNCryptHandles, State.call, hk]
    · simp
    · intro h; contradiction
    · simp [freeNCryptHandles, State.call, emitted, hr]
    · intro e he
      simp [freeNCryptHandles, State.call, emitted, hr] at he
      rcases he with he | he | he
      · exact hc e he
      · subst he; rfl
      · subst he; rfl
    · intro held
      simp only [freeNCryptHandles, State.call, emitted, hr, List.append_assoc, List.drop_left,
        List.foldl_append, hb]
      cases r.hKey <;> cases r.hProvider <;> simp [Event.step]
  · simp [emitted]


theorem Event.isCrypt_of_encryptFailed (e : Event) (h : e.encryptFailed = true) :
    e.isCrypt = true := by
  cases e <;> simp_all [Event.encryptFailed, Event.isCrypt]

theorem Event.isCrypt_of_decryptFailed (e : Event) (h : e.decryptFailed = true) :
    e.isCrypt = true := by
  cases e <;> simp_all [Event.decryptFailed, Event.isCrypt]

theorem freeNCryptHandles_step (hProv hKey : Option NCRYPT_HANDLE) (held : List NCRYPT_HANDLE) :
    Event.step (Event.step (hKey.toList ++ (hProv.toList ++ held)) (.freeObject hKey))
      (.freeObject hProv) = held := by
  cases hKey <;> cases hProv <;> simp [Event.step]

theorem storeKey_trace {σ : Type} (P : Platform σ) (s : State σ) (p : QString)
    (k : QByteArray) :
    (storeKey P s p k).2.trace = s.trace ++ emitted s (storeKey P s p k).2 ∧
    ∀ held, (emitted s (storeKey P s p k).2).foldl Event.step held = held := by
  simp only [storeKey]
  obtain ⟨-, -, -, ha, -, hab⟩ := isAvailable_spec P s
  obtain ⟨-, -, -, hr, -, hrb, -⟩ := getNCryptHandles_spec P (isAvailable P s).2
  generalize emitted s (isAvailable P s).2 = E1 at *
  generalize emitted (isAvailable P s).2 (getNCryptHandles P (isAvailable P s).2).state = E2 at *
  generalize getNCryptHandles P (isAvailable P s).2 = r at *
  generalize isAvailable P s = a at *
  repeat' split
  all_goals
    simp only [emitted, freeNCryptHandles, State.call, State.setKeys, hr, ha, List.append_assoc,
      List.drop_left, List.foldl_append, hab, hrb, List.foldl_cons, List.foldl_nil,
      List.cons_append, List.nil_append, true_and, List.append_nil, List.drop_length,
      implies_true, and_self]
  all_goals
    intro held
    simp only [Event.step, freeNCryptHandles_step]
    try exact freeNCryptHandles_step _ _ _


theorem storeKey_true {σ : Type} (P : Platform σ) (s : State σ) (p : QString)
    (k : QByteArray) (h : (storeKey P s p k).1 = true) :
    p.isEmpty = false ∧ k.isEmpty = false ∧
    (storeKey P s p k).2.g_winHelloAvailable = WINDOWSHELLO_AVAILABLE ∧
    QHash.contains (storeKey P s p k).2.g_encryptedMasterKeys p = true ∧
    (QHash.contains s.g_encryptedMasterKeys p = false →
      ∃ hKey n buf len w w',
        P.NCryptEncrypt w hKey k (some n) = (some (buf, len), w') ∧
        Event.encrypt hKey k (some n) (some (buf, len)) ∈ emitted s (storeKey P s p k).2 ∧
        (storeKey P s p k).2.g_encryptedMasterKeys =
          QHash.insert s.g_encryptedMasterKeys p
            (QByteArray.ctor buf (toInt32 len))) := by
  revert h
  simp only [storeKey]
  obtain ⟨hak, haa, -, ha, -, -⟩ := isAvailable_spec P s
  obtain ⟨hrk, hra, -, hr, -, -, -⟩ := getNCryptHandles_spec P (isAvailable P s).2
  generalize emitted s (isAvailable P s).2 = E1 at *
  generalize emitted (isAvailable P s).2 (getNCryptHandles P (isAvailable P s).2).state = E2 at *
  generalize getNCryptHandles P (isAvailable P s).2 = r at *
  generalize isAvailable P s = a at *
  repeat' split
  all_goals intro h
  all_goals try contradiction
  · simp_all
  · rename_i hp hk hav hc hok x1 sized w1 h1 x2 filled w2 h2
    simp only [State.call] at h2
    refine ⟨by simpa using hp, by simpa using hk, ?_, ?_, ?_⟩
    · simp_all [freeNCryptHandles, State.call, State.setKeys]
    · simp [freeNCryptHandles, State.call, State.setKeys, QHash.contains_insert_self]
    · intro _
      refine ⟨r.hKey, sized.2, filled.1, filled.2, w1, w2, h2, ?_, ?_⟩
      · simp [emitted, freeNCryptHandles, State.call, State.setKeys, hr, ha]
      · simp [freeNCryptHandles, State.call, State.setKeys, hrk, hak]


theorem any_encryptFailed_of_not_isCrypt (E : List Event) (h : ∀ e ∈ E, e.isCrypt = false) :
    E.any Event.encryptFailed = false := by
  rw [List.any_eq_false]
  intro e he hf
  have := h e he
  rw [Event.isCrypt_of_encryptFailed e hf] at this
  contradiction

theorem any_decryptFailed_of_not_isCrypt (E : List Event) (h : ∀ e ∈ E, e.isCrypt = false) :
    E.any Event.decryptFailed = false := by
  rw [List.any_eq_false]
  intro e he hf
  have := h e he
  rw [Event.isCrypt_of_decryptFailed e hf] at this
  contradiction

theorem storeKey_encryptFailed {σ : Type} (P : Platform σ) (s : State σ) (p : QString)
    (k : QByteArray)
    (h : (emitted s (storeKey P s p k).2).any Event.encryptFailed = true) :
    (storeKey P s p k).1 = false ∧
    (storeKey P s p k).2.g_encryptedMasterKeys = s.g_encryptedMasterKeys ∧
    (storeKey P s p k).2.g_winHelloAvailable = WINDOWSHELLO_AVAILABLE := by
  revert h
  simp only [storeKey]
  obtain ⟨hak, -, -, ha, hac, -⟩ := isAvailable_spec P s
  obtain ⟨hrk, hra, -, hr, hrc, -, -⟩ := getNCryptHandles_spec P (isAvailable P s).2
  generalize emitted s (isAvailable P s).2 = E1 at *
  generalize emitted (isAvailable P s).2 (getNCryptHandles P (isAvailable P s).2).state = E2 at *
  generalize getNCryptHandles P (isAvailable P s).2 = r at *
  generalize isAvailable P s = a at *
  have n1 := any_encryptFailed_of_not_isCrypt E1 hac
  have n2 := any_encryptFailed_of_not_isCrypt E2 hrc
  repeat' split
  all_goals
    simp only [emitted, freeNCryptHandles, State.call, State.setKeys, hr, ha, List.append_assoc,
      List.drop_left, List.cons_append, List.nil_append, List.append_nil, List.drop_length,
      List.any_append, List.any_cons, List.any_nil, n1, n2, Event.encryptFailed]
  all_goals simp_all


theorem getKey_trace {σ : Type} (P : Platform σ) (s : State σ) (p : QString)
    (out : QByteArray) :
    (getKey P s p out).state.trace = s.trace ++ emitted s (getKey P s p out).state ∧
    ∀ held, (emitted s (getKey P s p out).state).foldl Event.step held = held := by
  simp only [getKey]
  obtain ⟨-, -, -, ha, -, hab⟩ := isAvailable_spec P s
  obtain ⟨-, -, -, hr, -, hrb, -⟩ := getNCryptHandles_spec P (isAvailable P s).2
  generalize emitted s (isAvailable P s).2 = E1 at *
  generalize emitted (isAvailable P s).2 (getNCryptHandles P (isAvailable P s).2).state = E2 at *
  generalize getNCryptHandles P (isAvailable P s).2 = r at *
  generalize isAvailable P s = a at *
  repeat' split
  all_goals
    simp only [emitted, freeNCryptHandles, State.call, State.setKeys, hr, ha, List.append_assoc,
      List.drop_left, List.foldl_append, hab, hrb, List.foldl_cons, List.foldl_nil,
      List.cons_append, List.nil_append, true_and, List.append_nil, List.drop_length,
      implies_true, and_self]
  all_goals
    intro held
    simp only [Event.step, freeNCryptHandles_step]
    try exact freeNCryptHandles_step _ _ _

theorem getKey_keys {σ : Type} (P : Platform σ) (s : State σ) (p : QString)
    (out : QByteArray) :
    (getKey P s p out).state.g_encryptedMasterKeys = s.g_encryptedMasterKeys := by
  simp only [getKey]
  obtain ⟨hak, -, -, -, -, -⟩ := isAvailable_spec P s
  obtain ⟨hrk, -, -, -, -, -, -⟩ := getNCryptHandles_spec P (isAvailable P s).2
  generalize getNCryptHandles P (isAvailable P s).2 = r at *
  generalize isAvailable P s = a at *
  repeat' split
  all_goals
    first
    | rfl
    | exact hak
    | (simp only [freeNCryptHandles, State.call, State.setKeys, hrk, hak]; done)
    | (simp only [freeNCryptHandles, State.call, State.setKeys, hrk, hak]
       refine (QHash.index_of_contains _ _ ?_).1
       simp_all [hasKey])

theorem getKey_true {σ : Type} (P : Platform σ) (s : State σ) (p : QString)
    (out : QByteArray) (h : (getKey P s p out).ok = true) :
    ∃ c hKey w buf len w', QHash.find s.g_encryptedMasterKeys p = some c ∧
      P.NCryptDecrypt w hKey c = (some (buf, len), w') ∧
      (getKey P s p out).passwordKey = QByteArray.ctor buf (toInt32 len) := by
  revert h
  simp only [getKey]
  obtain ⟨hak, -, -, -, -, -⟩ := isAvailable_spec P s
  obtain ⟨hrk, -, -, -, -, -, -⟩ := getNCryptHandles_spec P (isAvailable P s).2
  generalize getNCryptHandles P (isAvailable P s).2 = r at *
  generalize isAvailable P s = a at *
  repeat' split
  all_goals intro h
  all_goals try contradiction
  rename_i hp hh hav hok x res w hd
  have hc : QHash.contains s.g_encryptedMasterKeys p = true := by simpa [hasKey] using hh
  simp only [State.setKeys, hrk, hak] at hd
  exact ⟨_, _, _, res.1, res.2, w, (QHash.index_of_contains _ _ hc).2, hd, rfl⟩

theorem getKey_decryptFailed {σ : Type} (P : Platform σ) (s : State σ) (p : QString)
    (out : QByteArray)
    (h : (emitted s (getKey P s p out).state).any Event.decryptFailed = true) :
    (getKey P s p out).ok = false ∧
    (getKey P s p out).state.g_winHelloAvailable = WINDOWSHELLO_AVAILABLE ∧
    hasKey s p = true := by
  revert h
  simp only [getKey]
  obtain ⟨hak, -, -, ha, hac, -⟩ := isAvailable_spec P s
  obtain ⟨hrk, hra, -, hr, hrc, -, -⟩ := getNCryptHandles_spec P (isAvailable P s).2
  generalize emitted s (isAvailable P s).2 = E1 at *
  generalize emitted (isAvailable P s).2 (getNCryptHandles P (isAvailable P s).2).state = E2 at *
  generalize getNCryptHandles P (isAvailable P s).2 = r at *
  generalize isAvailable P s = a at *
  have n1 := any_decryptFailed_of_not_isCrypt E1 hac
  have n2 := any_decryptFailed_of_not_isCrypt E2 hrc
  repeat' split
  all_goals
    simp only [emitted, freeNCryptHandles, State.call, State.setKeys, hr, ha, List.append_assoc,
      List.drop_left, List.cons_append, List.nil_append, List.append_nil, List.drop_length,
      List.any_append, List.any_cons, List.any_nil, n1, n2, Event.decryptFailed]
  all_goals simp_all

theorem toInt32_of_lt (n : Nat) (h : n < 2 ^ 31) : toInt32 n = (n : Int) := by
  have h2 : n % 2 ^ 32 = n := Nat.mod_eq_of_lt (by omega)
  unfold toInt32
  rw [h2, if_pos h]

theorem QByteArray.ctor_natCast (data : List UInt8) (n : Nat) :
    QByteArray.ctor data (n : Int) = data.take n := by
  simp [QByteArray.ctor]

/-! ## The claims -/

/-- C1 (round trip): let `p` have no entry in the store and let `k` be a key whose length
fits the `int` size of a `QByteArray`.  Assume the platform's decrypt, applied to the
ciphertext its encrypt produced for `k`, yields `k` with reported length `|k|`.  If
`storeKey(p, k)` returns true and the immediately following `getKey(p)` returns true, the
key `getKey` writes to its output equals `k` byte for byte, whatever the output held
before.  (That `p` and `k` are non-empty follows from `storeKey` returning true.) -/
theorem C1_round_trip {σ : Type} (P : Platform σ) (s : State σ) (p : QString)
    (k out : QByteArray)
    (hlen : k.length < 2 ^ 31)
    (hfresh : hasKey s p = false)
    (hplat : ∀ w hKey n buf len w', P.NCryptEncrypt w hKey k (some n) = (some (buf, len), w') →
      ∀ w2 hKey2 buf2 len2 w3,
        P.NCryptDecrypt w2 hKey2 (QByteArray.ctor buf (toInt32 len)) = (some (buf2, len2), w3) →
        len2 = k.length ∧ buf2.take k.length = k)
    (hstore : (storeKey P s p k).1 = true)
    (hget : (getKey P (storeKey P s p k).2 p out).ok = true) :
    (getKey P (storeKey P s p k).2 p out).passwordKey = k := by
  obtain ⟨-, -, -, -, hins⟩ := storeKey_true P s p k hstore
  obtain ⟨hKey, n, buf, len, w, w', henc, -, hkeys⟩ := hins hfresh
  obtain ⟨c, hKey2, w2, buf2, len2, w3, hfind, hdec, hout⟩ :=
    getKey_true P (storeKey P s p k).2 p out hget
  rw [hkeys, QHash.find_insert_self] at hfind
  cases hfind
  obtain ⟨hl, ht⟩ := hplat w hKey n buf len w' henc w2 hKey2 buf2 len2 w3 hdec
  rw [hout, hl, toInt32_of_lt _ hlen, QByteArray.ctor_natCast, ht]

/-- Witness for C1: the test double with no failing call, a fresh process, path
`/db/a.kdbx` and key `[1, 2, 3]`; the caller's output held `[5]`. -/
theorem C1_round_trip_witness :
    hasKey initial "/db/a.kdbx" = false ∧
    (storeKey (scripted 1000 none) initial "/db/a.kdbx" [1, 2, 3]).1 = true ∧
    (getKey (scripted 1000 none) (storeKey (scripted 1000 none) initial "/db/a.kdbx" [1, 2, 3]).2
      "/db/a.kdbx" [5]).ok = true ∧
    (getKey (scripted 1000 none) (storeKey (scripted 1000 none) initial "/db/a.kdbx" [1, 2, 3]).2
      "/db/a.kdbx" [5]).passwordKey = [1, 2, 3] :=
  ⟨by decide, by decide, by decide,
   C1_round_trip (scripted 1000 none) initial "/db/a.kdbx" [1, 2, 3] [5] (by decide) (by decide)
    (by
      intro w hKey n buf len w' henc w2 hKey2 buf2 len2 w3 hdec
      simp only [scripted] at henc hdec
      split at henc
      · simp at henc
      · simp only [Prod.mk.injEq, Option.some.injEq] at henc
        obtain ⟨⟨rfl, rfl⟩, -⟩ := henc
        split at hdec
        · simp at hdec
        · simp only [Prod.mk.injEq, Option.some.injEq] at hdec
          obtain ⟨⟨rfl, rfl⟩, -⟩ := hdec
          decide)
    (by decide) (by decide)⟩

/-- C2, as stated, fails when `p` already has an entry before the first call.  In a process
that is Available and holds `[9, 8, 7]` for `/db/a.kdbx`, `storeKey("/db/a.kdbx", [1, 2, 3])`
returns true at the `contains` check without logging any platform call, the following
`storeKey("/db/a.kdbx", [4, 5])` returns true as well, and the entry for the path is still
`[9, 8, 7]`: no `NCryptEncrypt` of `[1, 2, 3]` was made, so the entry is not a ciphertext
derived from `k1` (the platform's encrypt would have returned `[3, 2, 1]`). -/
theorem C2_entry_not_derived_from_k1 :
    (storeKey (scripted 1000 none) unlocked "/db/a.kdbx" [1, 2, 3]).1 = true ∧
    (storeKey (scripted 1000 none)
      (storeKey (scripted 1000 none) unlocked "/db/a.kdbx" [1, 2, 3]).2 "/db/a.kdbx"
        [4, 5]).1 = true ∧
    emitted unlocked (storeKey (scripted 1000 none) unlocked "/db/a.kdbx" [1, 2, 3]).2 = [] ∧
    QHash.find (storeKey (scripted 1000 none)
      (storeKey (scripted 1000 none) unlocked "/db/a.kdbx" [1, 2, 3]).2 "/db/a.kdbx"
        [4, 5]).2.g_encryptedMasterKeys "/db/a.kdbx" = some [9, 8, 7] ∧
    ¬ ∃ hKey n buf len,
      Event.encrypt hKey [1, 2, 3] (some n) (some (buf, len)) ∈
        emitted unlocked (storeKey (scripted 1000 none) unlocked "/db/a.kdbx" [1, 2, 3]).2 ∧
      QHash.find (storeKey (scripted 1000 none)
        (storeKey (scripted 1000 none) unlocked "/db/a.kdbx" [1, 2, 3]).2 "/db/a.kdbx"
          [4, 5]).2.g_encryptedMasterKeys "/db/a.kdbx" =
        some (QByteArray.ctor buf (toInt32 len)) := by
  have hlog :
      emitted unlocked (storeKey (scripted 1000 none) unlocked "/db/a.kdbx" [1, 2, 3]).2 = [] := by
    decide
  refine ⟨by decide, by decide, hlog, by decide, ?_⟩
  rintro ⟨hKey, n, buf, len, hmem, -⟩
  rw [hlog] at hmem
  exact absurd hmem (List.not_mem_nil _)

/-- C2 (amended; storeKey never overwrites): if `storeKey(p, k1)` returns true, then for
every non-empty `k2` the following `storeKey(p, k2)` returns true and leaves the whole state
as it was: no platform call is logged (no session, no encryption), the store is unchanged,
and the entry for `p` is the one present after the first call.  When `p` had no entry before
the first call, that entry is the ciphertext the platform's encrypt returned for `k1`. -/
theorem C2_storeKey_never_overwrites {σ : Type} (P : Platform σ) (s : State σ) (p : QString)
    (k1 k2 : QByteArray)
    (hk2 : k2.isEmpty = false)
    (hstore : (storeKey P s p k1).1 = true) :
    (storeKey P (storeKey P s p k1).2 p k2).1 = true ∧
    (storeKey P (storeKey P s p k1).2 p k2).2 = (storeKey P s p k1).2 ∧
    emitted (storeKey P s p k1).2 (storeKey P (storeKey P s p k1).2 p k2).2 = [] ∧
    (hasKey s p = false →
      ∃ hKey n buf len,
        Event.encrypt hKey k1 (some n) (some (buf, len)) ∈ emitted s (storeKey P s p k1).2 ∧
        QHash.find (storeKey P (storeKey P s p k1).2 p k2).2.g_encryptedMasterKeys p =
          some (QByteArray.ctor buf (toInt32 len))) := by
  obtain ⟨hp, -, hav, hc, hins⟩ := storeKey_true P s p k1 hstore
  have h2 : storeKey P (storeKey P s p k1).2 p k2 = (true, (storeKey P s p k1).2) := by
    generalize (storeKey P s p k1).2 = s1 at *
    simp [storeKey, isAvailable, hp, hk2, hav, hc, WINDOWSHELLO_AVAILABLE, WINDOWSHELLO_UNDEFINED]
  refine ⟨by rw [h2], by rw [h2], by rw [h2]; simp [emitted], ?_⟩
  intro hfresh
  obtain ⟨hKey, n, buf, len, w, w', -, hev, hkeys⟩ := hins hfresh
  exact ⟨hKey, n, buf, len, hev, by rw [h2]; simp only; rw [hkeys, QHash.find_insert_self]⟩

/-- Witness for the amended C2: after `[1, 2, 3]` is stored for `/db/a.kdbx` in a fresh
process, storing `[4, 5]` for the same path changes nothing, and the entry is the
ciphertext `[3, 2, 1]` that the logged `NCryptEncrypt` of `[1, 2, 3]` returned. -/
theorem C2_storeKey_never_overwrites_witness :
    (storeKey (scripted 1000 none) initial "/db/a.kdbx" [1, 2, 3]).1 = true ∧
    (storeKey (scripted 1000 none)
      (storeKey (scripted 1000 none) initial "/db/a.kdbx" [1, 2, 3]).2 "/db/a.kdbx" [4, 5]).1 =
      true ∧
    (storeKey (scripted 1000 none)
      (storeKey (scripted 1000 none) initial "/db/a.kdbx" [1, 2, 3]).2 "/db/a.kdbx" [4, 5]).2 =
      (storeKey (scripted 1000 none) initial "/db/a.kdbx" [1, 2, 3]).2 ∧
    QHash.find (storeKey (scripted 1000 none)
      (storeKey (scripted 1000 none) initial "/db/a.kdbx" [1, 2, 3]).2 "/db/a.kdbx"
        [4, 5]).2.g_encryptedMasterKeys "/db/a.kdbx" = some [3, 2, 1] ∧
    hasKey initial "/db/a.kdbx" = false ∧
    ∃ hKey n buf len,
      Event.encrypt hKey [1, 2, 3] (some n) (some (buf, len)) ∈
        emitted initial (storeKey (scripted 1000 none) initial "/db/a.kdbx" [1, 2, 3]).2 ∧
      QHash.find (storeKey (scripted 1000 none)
        (storeKey (scripted 1000 none) initial "/db/a.kdbx" [1, 2, 3]).2 "/db/a.kdbx"
          [4, 5]).2.g_encryptedMasterKeys "/db/a.kdbx" =
        some (QByteArray.ctor buf (toInt32 len)) :=
  ⟨by decide,
   (C2_storeKey_never_overwrites (scripted 1000 none) initial "/db/a.kdbx" [1, 2, 3] [4, 5]
    (by decide) (by decide)).1,
   (C2_storeKey_never_overwrites (scripted 1000 none) initial "/db/a.kdbx" [1, 2, 3] [4, 5]
    (by decide) (by decide)).2.1,
   by decide, by decide,
   (C2_storeKey_never_overwrites (scripted 1000 none) initial "/db/a.kdbx" [1, 2, 3] [4, 5]
    (by decide) (by decide)).2.2.2 (by decide)⟩

/-- C3: if `storeKey(p, k)` returns true then `hasKey(p)` is true immediately afterwards,
and after a subsequent `reset(p)` it is false; for every path, key, state and platform. -/
theorem C3_hasKey_after_storeKey_and_reset {σ : Type} (P : Platform σ) (s : State σ)
    (p : QString) (k : QByteArray)
    (hstore : (storeKey P s p k).1 = true) :
    hasKey (storeKey P s p k).2 p = true ∧
    hasKey (reset (storeKey P s p k).2 p) p = false := by
  obtain ⟨hp, -, -, hc, -⟩ := storeKey_true P s p k hstore
  refine ⟨hc, ?_⟩
  simp [reset, hp, hasKey, State.setKeys, QHash.contains_remove_self]

/-- Witness for C3: a fresh process, path `/db/b.kdbx`, key `[7]`, with an active window. -/
theorem C3_hasKey_after_storeKey_and_reset_witness :
    (storeKey (scripted 1000 (some 4)) initial "/db/b.kdbx" [7]).1 = true ∧
    hasKey (storeKey (scripted 1000 (some 4)) initial "/db/b.kdbx" [7]).2 "/db/b.kdbx" = true ∧
    hasKey (reset (storeKey (scripted 1000 (some 4)) initial "/db/b.kdbx" [7]).2 "/db/b.kdbx")
      "/db/b.kdbx" = false :=
  ⟨by decide,
   C3_hasKey_after_storeKey_and_reset (scripted 1000 (some 4)) initial "/db/b.kdbx" [7]
    (by decide)⟩

/-- C4 (reset refines the reference `invalidate` and touches nothing else): read as a finite
map, the store after `reset(p)` is `invalidate_spec` of the store before: with a non-empty
`p` the entry for `p` is gone and every other path maps to what it mapped to, with `p = ""`
every path maps to nothing.  `reset("")` leaves the empty store, so `hasKey` is false for
every path.  The capability state, the platform and the log of platform calls are unchanged
in both cases. -/
theorem C4_reset_refines_invalidate {σ : Type} (s : State σ) (p q : QString) :
    storeView (reset s p) q = invalidate_spec (storeView s) p q ∧
    storeView (reset s p) q = (if p = "" then none else if q = p then none else storeView s q) ∧
    (reset s "").g_encryptedMasterKeys = [] ∧
    hasKey (reset s "") q = false ∧
    (reset s p).g_winHelloAvailable = s.g_winHelloAvailable ∧
    (reset s p).platform = s.platform ∧
    (reset s p).trace = s.trace ∧
    emitted s (reset s p) = [] := by
  have he : ("" : String).isEmpty = true := rfl
  have hview : storeView (reset s p) q =
      (if p = "" then none else if q = p then none else storeView s q) := by
    by_cases hp : p = ""
    · subst hp
      simp [storeView, reset, he, State.setKeys, QHash.clear, QHash.find]
    · have hne : p.isEmpty = false := by
        cases h : p.isEmpty
        · rfl
        · exact absurd ((String.isEmpty_iff p).1 h) hp
      simp only [storeView, reset, hne, State.setKeys, hp, if_false]
      exact QHash.find_remove _ _ _
  refine ⟨hview, hview, ?_, ?_, ?_, ?_, ?_, ?_⟩
  · simp [reset, he, State.setKeys, QHash.clear]
  · simp [reset, he, State.setKeys, QHash.clear, hasKey, QHash.contains]
  all_goals
    unfold reset
    split <;> simp [State.setKeys, emitted]

/-- C5 (invalid arguments fail before any platform interaction): for every capability state
and store, `storeKey` with an empty path or an empty key, and `getKey` with an empty path,
return false and hand back the state they were given: same store, same capability state,
same platform state and nothing added to the log of platform calls. -/
theorem C5_invalid_arguments_fail_fast {σ : Type} (P : Platform σ) (s : State σ)
    (p : QString) (k out : QByteArray) :
    (p.isEmpty = true ∨ k.isEmpty = true →
      storeKey P s p k = (false, s) ∧ emitted s (storeKey P s p k).2 = []) ∧
    (p.isEmpty = true →
      (getKey P s p out).ok = false ∧ (getKey P s p out).state = s ∧
      emitted s (getKey P s p out).state = []) := by
  constructor
  · intro h
    have h1 : storeKey P s p k = (false, s) := by
      rcases h with h | h
      · simp [storeKey, h]
      · simp [storeKey, h]
    rw [h1]
    simp [emitted]
  · intro h
    simp [getKey, h, emitted]

/-- Witness for C5: in a process that holds a key and has not probed yet, an empty path and
an empty key for `storeKey` and an empty path for `getKey`. -/
theorem C5_invalid_arguments_fail_fast_witness :
    storeKey (scripted 1000 none) ⟨[("/db/a.kdbx", [9])], WINDOWSHELLO_UNDEFINED, 0, []⟩ "" [1] =
      (false, ⟨[("/db/a.kdbx", [9])], WINDOWSHELLO_UNDEFINED, 0, []⟩) ∧
    storeKey (scripted 1000 none) ⟨[("/db/a.kdbx", [9])], WINDOWSHELLO_UNDEFINED, 0, []⟩
      "/db/b.kdbx" [] = (false, ⟨[("/db/a.kdbx", [9])], WINDOWSHELLO_UNDEFINED, 0, []⟩) ∧
    (getKey (scripted 1000 none) ⟨[("/db/a.kdbx", [9])], WINDOWSHELLO_UNDEFINED, 0, []⟩ ""
      [1]).state = ⟨[("/db/a.kdbx", [9])], WINDOWSHELLO_UNDEFINED, 0, []⟩ :=
  ⟨((C5_invalid_arguments_fail_fast (scripted 1000 none)
      ⟨[("/db/a.kdbx", [9])], WINDOWSHELLO_UNDEFINED, 0, []⟩ "" [1] [1]).1 (Or.inl rfl)).1,
   ((C5_invalid_arguments_fail_fast (scripted 1000 none)
      ⟨[("/db/a.kdbx", [9])], WINDOWSHELLO_UNDEFINED, 0, []⟩ "/db/b.kdbx" [] [1]).1
        (Or.inr rfl)).1,
   ((C5_invalid_arguments_fail_fast (scripted 1000 none)
      ⟨[("/db/a.kdbx", [9])], WINDOWSHELLO_UNDEFINED, 0, []⟩ "" [1] [1]).2 rfl).2.1⟩

theorem run_unavailable {σ : Type} (P : Platform σ) (s : State σ) (c : Call)
    (h : s.g_winHelloAvailable = WINDOWSHELLO_NOT_AVAILABLE) :
    (c.run P s).2.g_winHelloAvailable = WINDOWSHELLO_NOT_AVAILABLE ∧
    (c.run P s).2.platform = s.platform ∧
    (c.run P s).2.trace = s.trace ∧
    (c.gated = true → (c.run P s).1 = some false) := by
  have ha : isAvailable P s = (false, s) := by
    simp [isAvailable, h, WINDOWSHELLO_NOT_AVAILABLE, WINDOWSHELLO_UNDEFINED,
      WINDOWSHELLO_AVAILABLE]
  cases c with
  | isAvailable => simp [Call.run, ha, h]
  | storeKey p k =>
    have hs : storeKey P s p k = (false, s) := by
      simp only [storeKey, ha]
      split
      · rfl
      · split <;> rfl
    simp [Call.run, hs, h]
  | getKey p out =>
    have hg : getKey P s p out = ⟨false, out, s⟩ := by
      simp only [getKey, ha]
      split
      · rfl
      · split <;> rfl
    simp [Call.run, hg, h]
  | hasKey p => simp [Call.run, h, Call.gated]
  | reset p =>
    simp only [Call.run, Call.gated]
    unfold reset
    split <;> simp [State.setKeys, h]

theorem runCalls_unavailable {σ : Type} (P : Platform σ) (calls : List Call) :
    ∀ s : State σ, s.g_winHelloAvailable = WINDOWSHELLO_NOT_AVAILABLE →
      (runCalls P s calls).2.g_winHelloAvailable = WINDOWSHELLO_NOT_AVAILABLE ∧
      (runCalls P s calls).2.platform = s.platform ∧
      (runCalls P s calls).2.trace = s.trace ∧
      ∀ c r, (c, r) ∈ (runCalls P s calls).1 → c.gated = true → r = some false := by
  induction calls with
  | nil => intro s h; simp [runCalls, h]
  | cons c cs ih =>
    intro s h
    obtain ⟨h1, h2, h3, h4⟩ := run_unavailable P s c h
    obtain ⟨i1, i2, i3, i4⟩ := ih (c.run P s).2 h1
    refine ⟨by simpa [runCalls] using i1, by simp only [runCalls]; rw [i2, h2],
      by simp only [runCalls]; rw [i3, h3], ?_⟩
    intro c' r hm hg
    simp only [runCalls, List.mem_cons, Prod.mk.injEq] at hm
    rcases hm with ⟨rfl, rfl⟩ | hm
    · exact h4 hg
    · exact i4 c' r hm hg

/-- C6 (Unavailable is absorbing).  First part: if any step of `getNCryptHandles` (provider
open, key enumeration, key open, a property set) reports an error, it returns false with
the capability state Unavailable; and if that happens in the probe run by `isAvailable()`,
`isAvailable()` returns false and the capability state is Unavailable afterwards.
Second part: from a state that is Unavailable, after every sequence of `isAvailable`,
`storeKey`, `getKey`, `hasKey` and `reset` calls the state is still Unavailable, the
platform state is untouched and no platform call has been logged, and every `isAvailable`,
`storeKey` and `getKey` in the sequence returned false. -/
theorem C6_unavailable_is_absorbing {σ : Type} (P : Platform σ) (s : State σ)
    (calls : List Call) :
    ((∃ e ∈ emitted s (getNCryptHandles P s).state, e.failed = true) →
      (getNCryptHandles P s).ok = false ∧
      (getNCryptHandles P s).state.g_winHelloAvailable = WINDOWSHELLO_NOT_AVAILABLE) ∧
    ((∃ e ∈ emitted s (isAvailable P s).2, e.failed = true) →
      (isAvailable P s).1 = false ∧
      (isAvailable P s).2.g_winHelloAvailable = WINDOWSHELLO_NOT_AVAILABLE) ∧
    (s.g_winHelloAvailable = WINDOWSHELLO_NOT_AVAILABLE →
      (runCalls P s calls).2.g_winHelloAvailable = WINDOWSHELLO_NOT_AVAILABLE ∧
      (runCalls P s calls).2.platform = s.platform ∧
      emitted s (runCalls P s calls).2 = [] ∧
      ∀ c r, (c, r) ∈ (runCalls P s calls).1 → c.gated = true → r = some false) := by
  refine ⟨?_, ?_, ?_⟩
  · intro h
    obtain ⟨-, -, hna, -, -, -, hfail⟩ := getNCryptHandles_spec P s
    exact ⟨hfail.1 h, hna (hfail.1 h)⟩
  · simp only [isAvailable]
    obtain ⟨-, -, hna, hr, -, -, hfail⟩ := getNCryptHandles_spec P s
    generalize emitted s (getNCryptHandles P s).state = E at *
    generalize getNCryptHandles P s = r at *
    split
    · simp only [emitted, freeNCryptHandles, State.call, hr, List.append_assoc, List.drop_left,
        List.mem_append, List.mem_cons, List.cons_append, List.nil_append, List.not_mem_nil,
        or_false]
      rintro ⟨e, he | he | he, hf⟩
      · have hav := hna (hfail.1 ⟨e, he, hf⟩)
        simp [hav, WINDOWSHELLO_NOT_AVAILABLE, WINDOWSHELLO_AVAILABLE]
      · subst he; simp [Event.failed] at hf
      · subst he; simp [Event.failed] at hf
    · simp [emitted]
  · intro h
    obtain ⟨h1, h2, h3, h4⟩ := runCalls_unavailable P calls s h
    exact ⟨h1, h2, by simp [emitted, h3], h4⟩

/-- Witness for C6: the key open fails in a session of an Available process (call 2 of the
test double); on a fresh process the provider open fails (call 0) and afterwards the sequence `storeKey, isAvailable, getKey, hasKey, reset, storeKey` is run from
the resulting Unavailable state. -/
theorem C6_unavailable_is_absorbing_witness :
    ((getNCryptHandles (scripted 2 none) unlocked).ok = false ∧
      (getNCryptHandles (scripted 2 none) unlocked).state.g_winHelloAvailable =
        WINDOWSHELLO_NOT_AVAILABLE) ∧
    ((isAvailable (scripted 0 none) initial).1 = false ∧
      (isAvailable (scripted 0 none) initial).2.g_winHelloAvailable =
        WINDOWSHELLO_NOT_AVAILABLE) ∧
    (runCalls (scripted 1000 none) (isAvailable (scripted 0 none) initial).2
      [.storeKey "/db/a.kdbx" [1], .isAvailable, .getKey "/db/a.kdbx" [], .hasKey "/db/a.kdbx",
        .reset "", .storeKey "/db/a.kdbx" [2]]).2.g_winHelloAvailable =
      WINDOWSHELLO_NOT_AVAILABLE :=
  ⟨(C6_unavailable_is_absorbing (scripted 2 none) unlocked []).1
      ⟨.openKey 100 "hello" 0 none, by decide, by decide⟩,
   (C6_unavailable_is_absorbing (scripted 0 none) initial []).2.1
      ⟨.openStorageProvider none, by decide, by decide⟩,
   ((C6_unavailable_is_absorbing (scripted 1000 none) (isAvailable (scripted 0 none) initial).2
      [.storeKey "/db/a.kdbx" [1], .isAvailable, .getKey "/db/a.kdbx" [], .hasKey "/db/a.kdbx",
        .reset "", .storeKey "/db/a.kdbx" [2]]).2.2 (by decide)).1⟩

/-- C7 (a failed wrap or unwrap is atomic): when a call of `storeKey` logs an
`NCryptEncrypt` (size query or fill) that reported an error, or a call of `getKey` logs an
`NCryptDecrypt` that reported an error (in both cases the session had opened), the call
returns false, the store after the call equals the store before it (so for `getKey` the
entry for the path is still present with the same ciphertext), and the capability state is
Available. -/
theorem C7_failed_wrap_unwrap_is_atomic {σ : Type} (P : Platform σ) (s : State σ)
    (p : QString) (k out : QByteArray) :
    ((∃ e ∈ emitted s (storeKey P s p k).2, e.encryptFailed = true) →
      (storeKey P s p k).1 = false ∧
      (storeKey P s p k).2.g_encryptedMasterKeys = s.g_encryptedMasterKeys ∧
      (storeKey P s p k).2.g_winHelloAvailable = WINDOWSHELLO_AVAILABLE) ∧
    ((∃ e ∈ emitted s (getKey P s p out).state, e.decryptFailed = true) →
      (getKey P s p out).ok = false ∧
      (getKey P s p out).state.g_encryptedMasterKeys = s.g_encryptedMasterKeys ∧
      hasKey (getKey P s p out).state p = true ∧
      QHash.find (getKey P s p out).state.g_encryptedMasterKeys p =
        QHash.find s.g_encryptedMasterKeys p ∧
      (getKey P s p out).state.g_winHelloAvailable = WINDOWSHELLO_AVAILABLE) := by
  constructor
  · intro h
    exact storeKey_encryptFailed P s p k (List.any_eq_true.2 h)
  · intro h
    obtain ⟨h1, h2, h3⟩ := getKey_decryptFailed P s p out (List.any_eq_true.2 h)
    have hk := getKey_keys P s p out
    refine ⟨h1, hk, ?_, by rw [hk], h2⟩
    simpa [hasKey, hk] using h3

/-- Witness for C7: in a process that is Available and holds a key for `/db/a.kdbx`, the
size query of `NCryptEncrypt` (call 6 of the test double) or its fill call (call 7) fails
while storing for `/db/b.kdbx`, and `NCryptDecrypt` fails while fetching `/db/a.kdbx`
(call 6). -/
theorem C7_failed_wrap_unwrap_is_atomic_witness :
    ((storeKey (scripted 6 none) unlocked "/db/b.kdbx" [1, 2]).1 = false ∧
      (storeKey (scripted 6 none) unlocked "/db/b.kdbx" [1, 2]).2.g_encryptedMasterKeys =
        unlocked.g_encryptedMasterKeys ∧
      (storeKey (scripted 6 none) unlocked "/db/b.kdbx" [1, 2]).2.g_winHelloAvailable =
        WINDOWSHELLO_AVAILABLE) ∧
    ((storeKey (scripted 7 none) unlocked "/db/b.kdbx" [1, 2]).1 = false ∧
      (storeKey (scripted 7 none) unlocked "/db/b.kdbx" [1, 2]).2.g_encryptedMasterKeys =
        unlocked.g_encryptedMasterKeys ∧
      (storeKey (scripted 7 none) unlocked "/db/b.kdbx" [1, 2]).2.g_winHelloAvailable =
        WINDOWSHELLO_AVAILABLE) ∧
    (getKey (scripted 6 none) unlocked "/db/a.kdbx" []).ok = false ∧
    hasKey (getKey (scripted 6 none) unlocked "/db/a.kdbx" []).state "/db/a.kdbx" = true :=
  ⟨(C7_failed_wrap_unwrap_is_atomic (scripted 6 none) unlocked "/db/b.kdbx" [1, 2] []).1
      ⟨.encrypt (some 200) [1, 2] none none, by decide, by decide⟩,
   (C7_failed_wrap_unwrap_is_atomic (scripted 7 none) unlocked "/db/b.kdbx" [1, 2] []).1
      ⟨.encrypt (some 200) [1, 2] (some 2) none, by decide, by decide⟩,
   ((C7_failed_wrap_unwrap_is_atomic (scripted 6 none) unlocked "/db/a.kdbx" [] []).2
      ⟨.decrypt (some 200) [9, 8, 7] none, by decide, by decide⟩).1,
   ((C7_failed_wrap_unwrap_is_atomic (scripted 6 none) unlocked "/db/a.kdbx" [] []).2
      ⟨.decrypt (some 200) [9, 8, 7] none, by decide, by decide⟩).2.2.1⟩

/-- C8, as stated, fails: the caller's output holds `[1, 2]` before the call; `getKey`
returns false (once because no entry exists for the path, once because `NCryptDecrypt`
reports an error) and the output still holds `[1, 2]`, not the empty byte sequence. -/
theorem C8_failed_getKey_output_not_emptied :
    ((getKey (scripted 1000 none) unlocked "/db/missing.kdbx" [1, 2]).ok = false ∧
      (getKey (scripted 1000 none) unlocked "/db/missing.kdbx" [1, 2]).passwordKey = [1, 2] ∧
      (getKey (scripted 1000 none) unlocked "/db/missing.kdbx" [1, 2]).passwordKey ≠ []) ∧
    ((getKey (scripted 6 none) unlocked "/db/a.kdbx" [1, 2]).ok = false ∧
      (getKey (scripted 6 none) unlocked "/db/a.kdbx" [1, 2]).passwordKey = [1, 2] ∧
      (getKey (scripted 6 none) unlocked "/db/a.kdbx" [1, 2]).passwordKey ≠ []) := by
  decide

/-- C8 (amended): whenever `getKey` returns false (empty path, missing entry, capability
unavailable, session failure or decryption failure), the caller's output key is exactly
what it was before the call; `getKey` never writes to it on failure. -/
theorem C8_failed_getKey_leaves_output_unchanged {σ : Type} (P : Platform σ) (s : State σ)
    (p : QString) (out : QByteArray)
    (hfail : (getKey P s p out).ok = false) :
    (getKey P s p out).passwordKey = out := by
  revert hfail
  simp only [getKey]
  repeat' split
  all_goals simp

/-- Witness for the amended C8: a failed decryption with the output holding `[1, 2]`. -/
theorem C8_failed_getKey_leaves_output_unchanged_witness :
    (getKey (scripted 6 none) unlocked "/db/a.kdbx" [1, 2]).ok = false ∧
    (getKey (scripted 6 none) unlocked "/db/a.kdbx" [1, 2]).passwordKey = [1, 2] :=
  ⟨by decide,
    C8_failed_getKey_leaves_output_unchanged (scripted 6 none) unlocked "/db/a.kdbx" [1, 2]
      (by decide)⟩

/-- C9 (no handle leaks): for every platform, state and arguments, replaying the platform
calls logged by one `isAvailable`, `storeKey` or `getKey` call leaves no handle open: every
handle a provider-open or key-open returned during the call has been passed to
`NCryptFreeObject` by the time the call returns. -/
theorem C9_no_handle_leaks {σ : Type} (P : Platform σ) (s : State σ) (p : QString)
    (k out : QByteArray) :
    openHandles (emitted s (isAvailable P s).2) = [] ∧
    openHandles (emitted s (storeKey P s p k).2) = [] ∧
    openHandles (emitted s (getKey P s p out).state) = [] :=
  ⟨(isAvailable_spec P s).2.2.2.2.2 [], (storeKey_trace P s p k).2 [],
    (getKey_trace P s p out).2 []⟩

/-- C10 at its failing inputs.  When the provider open fails during the probe of
`isAvailable()`, the call logs two `NCryptFreeObject` calls on handle variables that
nothing assigned; when key enumeration fails in the session of `storeKey`, the key handle
variable is released unassigned.  In both logs a release is applied to something no
successful open returned.  (On a run where the session opens, every release is of an
opened handle.) -/
theorem C10_release_of_unassigned_handle :
    emitted initial (isAvailable (scripted 0 none) initial).2 =
      [.openStorageProvider none, .freeObject none, .freeObject none] ∧
    releasesOnlyOpened [] (emitted initial (isAvailable (scripted 0 none) initial).2) = false ∧
    emitted unlocked (storeKey (scripted 1 none) unlocked "/db/b.kdbx" [1, 2]).2 =
      [.openStorageProvider (some 100), .enumKeys 100 none, .freeObject none,
        .freeObject (some 100)] ∧
    releasesOnlyOpened []
      (emitted unlocked (storeKey (scripted 1 none) unlocked "/db/b.kdbx" [1, 2]).2) = false ∧
    releasesOnlyOpened [] (emitted initial (isAvailable (scripted 1000 none) initial).2) = true := by
  decide

end WindowsHello
